import Mathlib

/-!
Shallow embedding of the accounting core of the two pallets
(`pallets/assets/src/lib.rs` and `pallets/nfts/src/lib.rs`).

Machine integers: every stored quantity is a `u128`, embedded as `Nat`
with explicit bounds.  `saturating_add` / `saturating_sub` clamp at the
bounds; `checked_add` fails past the bound; the plain Rust operators
`+=` / `-=` trap (panic) on overflow or underflow, which we model with an
explicit `trap` outcome (Substrate runtimes are built with overflow
checks enabled, and the spec describes these operations as able to
"underflow/trap").
-/

/-- Maximal value of a `u128`. -/
def U128_MAX : Nat := 2 ^ 128 - 1

/-- Rust `u128::saturating_add`. -/
def satAdd (a b : Nat) : Nat := min (a + b) U128_MAX

/-- Rust `u128::saturating_sub` (Nat subtraction already truncates at zero). -/
def satSub (a b : Nat) : Nat := a - b

/-- Rust `u128::checked_add`. -/
def checkedAdd (a b : Nat) : Option Nat :=
  if a + b ≤ U128_MAX then some (a + b) else none

/-!
The balance ledger.  Both pallets declare

  `StorageDoubleMap<AssetId, AccountId, u128, ValueQuery>`

i.e. a sparse map from `(asset id, account id)` to a `u128` that reads
as `0` when absent.  We embed it as an association list of entries, so
that the "sum of all balance-ledger entries for an asset id" of the
spec is a finite sum over the entries.
-/

abbrev BalKey := Nat × Nat

abbrev Bal := List (BalKey × Nat)

/-- Read a ledger entry; absent entries read as zero (ValueQuery). -/
def getBal : Bal → BalKey → Nat
  | [], _ => 0
  | e :: t, k => if e.1 = k then e.2 else getBal t k

/-- Remove every entry with the given key. -/
def eraseKey : Bal → BalKey → Bal
  | [], _ => []
  | e :: t, k => if e.1 = k then eraseKey t k else e :: eraseKey t k

/-- Write a ledger entry (insert or overwrite). -/
def setBal (b : Bal) (k : BalKey) (v : Nat) : Bal :=
  eraseKey b k ++ [(k, v)]

/-- Sum of all ledger entries for one asset id. -/
def sumBal : Bal → Nat → Nat
  | [], _ => 0
  | e :: t, id => (if e.1.1 = id then e.2 else 0) + sumBal t id

/-- Keys of the ledger. -/
def balKeys (b : Bal) : List BalKey := b.map Prod.fst

/-- The ledger has no duplicate keys (maintained by `setBal` from the
empty ledger; a genuine map). -/
def NodupKeys (b : Bal) : Prop := (balKeys b).Nodup

theorem getBal_append_left (l₁ l₂ : Bal) (k : BalKey)
    (h : ∀ e ∈ l₁, e.1 ≠ k) : getBal (l₁ ++ l₂) k = getBal l₂ k := by
  induction l₁ with
  | nil => rfl
  | cons e t ih =>
      have he : e.1 ≠ k := h e (by simp)
      simp only [List.cons_append, getBal, if_neg he]
      exact ih (fun x hx => h x (by simp [hx]))

theorem eraseKey_no_key (b : Bal) (k : BalKey) :
    ∀ e ∈ eraseKey b k, e.1 ≠ k := by
  induction b with
  | nil => intro e he; cases he
  | cons x t ih =>
      intro e he
      by_cases hx : x.1 = k
      · simp only [eraseKey, if_pos hx] at he
        exact ih e he
      · simp only [eraseKey, if_neg hx] at he
        rcases List.mem_cons.mp he with he | he
        · subst he; exact hx
        · exact ih e he

theorem mem_eraseKey (b : Bal) (k : BalKey) (e : BalKey × Nat)
    (h : e ∈ eraseKey b k) : e ∈ b := by
  induction b with
  | nil => cases h
  | cons x t ih =>
      by_cases hx : x.1 = k
      · simp only [eraseKey, if_pos hx] at h
        exact List.mem_cons_of_mem _ (ih h)
      · simp only [eraseKey, if_neg hx] at h
        rcases List.mem_cons.mp h with h | h
        · exact h ▸ List.mem_cons_self _ _
        · exact List.mem_cons_of_mem _ (ih h)

theorem getBal_setBal_same (b : Bal) (k : BalKey) (v : Nat) :
    getBal (setBal b k v) k = v := by
  unfold setBal
  rw [getBal_append_left _ _ _ (eraseKey_no_key b k)]
  simp [getBal]

theorem getBal_eraseKey_ne (b : Bal) (k k' : BalKey) (h : k' ≠ k) :
    getBal (eraseKey b k) k' = getBal b k' := by
  induction b with
  | nil => rfl
  | cons x t ih =>
      by_cases hx : x.1 = k
      · have hxk' : x.1 ≠ k' := by rw [hx]; exact fun hc => h hc.symm
        simp only [eraseKey, if_pos hx]
        rw [ih]
        simp only [getBal, if_neg hxk']
      · simp only [eraseKey, if_neg hx, getBal]
        rw [ih]

theorem getBal_setBal_ne (b : Bal) (k k' : BalKey) (v : Nat) (h : k' ≠ k) :
    getBal (setBal b k v) k' = getBal b k' := by
  unfold setBal
  have hk : ((k, v) : BalKey × Nat).1 ≠ k' := fun hc => h hc.symm
  induction b with
  | nil =>
      simp only [eraseKey, List.nil_append, getBal, if_neg hk]
  | cons x t ih =>
      by_cases hx : x.1 = k
      · simp only [eraseKey, if_pos hx]
        rw [ih]
        have hxk' : x.1 ≠ k' := by rw [hx]; exact fun hc => h hc.symm
        simp only [getBal, if_neg hxk']
      · simp only [eraseKey, if_neg hx, List.cons_append, getBal]
        rw [ih]

theorem sumBal_append (l₁ l₂ : Bal) (id : Nat) :
    sumBal (l₁ ++ l₂) id = sumBal l₁ id + sumBal l₂ id := by
  induction l₁ with
  | nil => simp [sumBal]
  | cons e t ih => simp [sumBal, ih]; omega

theorem eraseKey_of_not_mem (b : Bal) (k : BalKey)
    (h : k ∉ balKeys b) : eraseKey b k = b := by
  induction b with
  | nil => rfl
  | cons x t ih =>
      simp only [balKeys, List.map_cons, List.mem_cons] at h
      push_neg at h
      have hx : x.1 ≠ k := fun hc => h.1 hc.symm
      simp only [eraseKey, if_neg hx]
      rw [ih h.2]

/-- Splitting a duplicate-free ledger's per-asset sum at one key. -/
theorem sumBal_split (b : Bal) (k : BalKey) (id : Nat)
    (hn : NodupKeys b) :
    sumBal b id =
      sumBal (eraseKey b k) id + (if k.1 = id then getBal b k else 0) := by
  induction b with
  | nil => simp [sumBal, eraseKey, getBal]
  | cons x t ih =>
      have hn' : NodupKeys t := by
        simpa [NodupKeys, balKeys] using (List.nodup_cons.mp hn).2
      have hxt : x.1 ∉ balKeys t := by
        simpa [NodupKeys, balKeys] using (List.nodup_cons.mp hn).1
      by_cases hx : x.1 = k
      · have ht : eraseKey t k = t := eraseKey_of_not_mem t k (hx ▸ hxt)
        simp only [eraseKey, if_pos hx, ht, getBal, if_pos hx, sumBal]
        rw [hx]
        omega
      · simp only [eraseKey, if_neg hx, sumBal, getBal, if_neg hx]
        rw [ih hn']
        omega

theorem sumBal_setBal_same (b : Bal) (k : BalKey) (v id : Nat)
    (hn : NodupKeys b) (hk : k.1 = id) :
    sumBal (setBal b k v) id + getBal b k = sumBal b id + v := by
  unfold setBal
  rw [sumBal_append, sumBal_split b k id hn]
  simp [sumBal, hk]
  omega

theorem sumBal_setBal_ne (b : Bal) (k : BalKey) (v id : Nat)
    (hk : k.1 ≠ id) :
    sumBal (setBal b k v) id = sumBal b id := by
  unfold setBal
  rw [sumBal_append]
  have herase : ∀ l : Bal, sumBal (eraseKey l k) id = sumBal l id := by
    intro l
    induction l with
    | nil => rfl
    | cons x t ih =>
        by_cases hx : x.1 = k
        · have : x.1.1 ≠ id := by rw [hx]; exact hk
          simp [eraseKey, if_pos hx, sumBal, this, ih]
        · simp [eraseKey, if_neg hx, sumBal, ih]
  simp [sumBal, hk, herase]

theorem getBal_le_sumBal (b : Bal) (k : BalKey) (hn : NodupKeys b) :
    getBal b k ≤ sumBal b k.1 := by
  have := sumBal_split b k k.1 hn
  simp at this
  omega

theorem eraseKey_nodup (b : Bal) (k : BalKey) (hn : NodupKeys b) :
    NodupKeys (eraseKey b k) := by
  induction b with
  | nil => exact hn
  | cons x t ih =>
      have hn' : NodupKeys t := by
        simpa [NodupKeys, balKeys] using (List.nodup_cons.mp hn).2
      have hxt : x.1 ∉ balKeys t := by
        simpa [NodupKeys, balKeys] using (List.nodup_cons.mp hn).1
      by_cases hx : x.1 = k
      · simp only [eraseKey, if_pos hx]
        exact ih hn'
      · simp only [eraseKey, if_neg hx]
        refine List.nodup_cons.mpr ⟨?_, ih hn'⟩
        intro hmem
        apply hxt
        simp only [List.mem_map] at hmem
        obtain ⟨e, he, hek⟩ := hmem
        simp only [balKeys, List.mem_map]
        exact ⟨e, mem_eraseKey t k e he, hek⟩

theorem setBal_nodup (b : Bal) (k : BalKey) (v : Nat) (hn : NodupKeys b) :
    NodupKeys (setBal b k v) := by
  unfold setBal
  have h1 := eraseKey_nodup b k hn
  have h2 := eraseKey_no_key b k
  simp only [NodupKeys, balKeys, List.map_append, List.map_cons, List.map_nil]
  rw [List.nodup_append]
  refine ⟨h1, List.nodup_singleton k, ?_⟩
  intro x hx hy
  simp only [List.mem_singleton] at hy
  simp only [List.mem_map] at hx
  obtain ⟨e, he, hek⟩ := hx
  exact h2 e he (hek.trans hy)

/-- Two distinct keys of a duplicate-free ledger bound its per-asset sum. -/
theorem getBal_pair_le_sumBal (b : Bal) (k k' : BalKey) (id : Nat)
    (hn : NodupKeys b) (hkk' : k ≠ k') (hk : k.1 = id) (hk' : k'.1 = id) :
    getBal b k + getBal b k' ≤ sumBal b id := by
  have hsplit := sumBal_split b k id hn
  rw [if_pos hk] at hsplit
  have h2 : getBal (eraseKey b k) k' ≤ sumBal (eraseKey b k) k'.1 :=
    getBal_le_sumBal _ _ (eraseKey_nodup b k hn)
  rw [getBal_eraseKey_ne b k k' (fun hc => hkk' hc.symm), hk'] at h2
  omega

/-!
Data model and command handlers.

Each command runs with an already-authenticated caller (`ensure_signed`
is a collaborator outside the core).  A command's result is an
`Outcome`: `ok` with the new storage state, `err` with the named pallet
error and the storage state at the moment the error was returned (in
this code every named error is returned before any write), or `trap`
when a plain `+=` / `-=` overflows or underflows (a panic).
-/

inductive Outcome (ε σ : Type) where
  | ok (s : σ)
  | err (e : ε) (s : σ)
  | trap
deriving Repr

/-- Function update for a StorageMap (`insert`). -/
def updMap {α : Type} (m : Nat → Option α) (k : Nat) (v : Option α) :
    Nat → Option α :=
  fun i => if i = k then v else m i

namespace Assets

/-- Modelled from the spec: `AssetDetails` of `pallets/assets/src/types.rs`
(the file is not under src/): { owner, supply : u128 }. -/
structure AssetDetails where
  owner : Nat
  supply : Nat
deriving Repr, DecidableEq

/-- Modelled from the spec: `AssetDetails::new(origin)` stores owner
`origin` and supply `0` (§4.2: create stores AssetDetails{owner: caller,
supply: 0}). -/
def AssetDetails.new (origin : Nat) : AssetDetails :=
  { owner := origin, supply := 0 }

/-- Modelled from the spec: `AssetMetadata` of `pallets/assets/src/types.rs`:
{ name, symbol : byte sequences }. -/
structure AssetMetadata where
  name : List Nat
  symbol : List Nat
deriving Repr, DecidableEq

/-- Modelled from the spec: `AssetMetadata::new(name, symbol)`. -/
def AssetMetadata.new (name symbol : List Nat) : AssetMetadata :=
  { name := name, symbol := symbol }

inductive Error where
  | Unknown
  | NoPermission
deriving Repr, DecidableEq

/-- Storage of the fungible pallet: `Asset`, `Account`, `Metadata`, `Nonce`. -/
structure State where
  asset : Nat → Option AssetDetails
  account : Bal
  metadata : Nat → Option AssetMetadata
  nonce : Nat

/-- Genesis storage: every map empty, nonce 0. -/
def init : State :=
  { asset := fun _ => none, account := [], metadata := fun _ => none, nonce := 0 }

/-- The `ensure_is_owner` helper of the fungible pallet. -/
def ensure_is_owner (s : State) (asset_id account : Nat) :
    Except Error Unit :=
  match s.asset asset_id with
  | none => .error .Unknown
  | some details =>
      if details.owner = account then .ok () else .error .NoPermission

/-- Dispatchable `create`: allocates the nonce as id, stores fresh
details, advances the nonce with `saturating_add`.  It has no failure
path, so it returns the new state directly. -/
def create (s : State) (origin : Nat) : State :=
  let id := s.nonce
  { s with
      asset := updMap s.asset id (some (AssetDetails.new origin)),
      nonce := satAdd id 1 }

/-- Dispatchable `set_metadata`. -/
def set_metadata (s : State) (origin asset_id : Nat)
    (name symbol : List Nat) : Outcome Error State :=
  match ensure_is_owner s asset_id origin with
  | .error e => .err e s
  | .ok _ =>
      .ok { s with
              metadata :=
                updMap s.metadata asset_id (some (AssetMetadata.new name symbol)) }

/-- Dispatchable `mint`: owner-gated; `supply` grows by `saturating_add`;
the minted delta `new_supply - old_supply` is added to the recipient's
balance with a plain `+=` (traps past `u128::MAX`). -/
def mint (s : State) (origin asset_id amount dest : Nat) :
    Outcome Error State :=
  match ensure_is_owner s asset_id origin with
  | .error e => .err e s
  | .ok _ =>
      match s.asset asset_id with
      | none => .err .Unknown s
      | some details =>
          let old_supply := details.supply
          let new_supply := satAdd old_supply amount
          let minted_amount := new_supply - old_supply
          let s₁ := { s with
                        asset := updMap s.asset asset_id
                          (some { details with supply := new_supply }) }
          let balance := getBal s₁.account (asset_id, dest)
          if balance + minted_amount ≤ U128_MAX then
            .ok { s₁ with
                    account :=
                      setBal s₁.account (asset_id, dest) (balance + minted_amount) }
          else .trap

/-- Dispatchable `burn`: no ownership check; the caller's balance shrinks
by `saturating_sub`; the burned delta `old_balance - new_balance` is then
removed from `supply` with a plain `-=` (traps on underflow). -/
def burn (s : State) (origin asset_id amount : Nat) :
    Outcome Error State :=
  match s.asset asset_id with
  | none => .err .Unknown s
  | some details =>
      let old_balance := getBal s.account (asset_id, origin)
      let new_balance := satSub old_balance amount
      let burned_amount := old_balance - new_balance
      let account' := setBal s.account (asset_id, origin) new_balance
      if burned_amount ≤ details.supply then
        .ok { s with
                asset := updMap s.asset asset_id
                  (some { details with supply := details.supply - burned_amount }),
                account := account' }
      else .trap

/-- Dispatchable `transfer`: requires the asset to exist; the caller's
balance shrinks by `saturating_sub`, the transferred delta is added to
the recipient's balance by `saturating_add`. -/
def transfer (s : State) (origin asset_id amount dest : Nat) :
    Outcome Error State :=
  match s.asset asset_id with
  | none => .err .Unknown s
  | some _ =>
      let old_balance := getBal s.account (asset_id, origin)
      let new_balance := satSub old_balance amount
      let transfered_amount := old_balance - new_balance
      let acc₁ := setBal s.account (asset_id, origin) new_balance
      let recv := getBal acc₁ (asset_id, dest)
      .ok { s with
              account := setBal acc₁ (asset_id, dest) (satAdd recv transfered_amount) }

end Assets

namespace Nfts

/-- Modelled from the spec: `UniqueAssetDetails` of
`pallets/nfts/src/types.rs` (the file is not under src/):
{ creator, metadata, supply : u128 }; `new` stores its arguments. -/
structure UniqueAssetDetails where
  creator : Nat
  metadata : List Nat
  supply : Nat
deriving Repr, DecidableEq

/-- Modelled from the spec: `UniqueAssetDetails::new(who, metadata, supply)`. -/
def UniqueAssetDetails.new (who : Nat) (metadata : List Nat) (supply : Nat) :
    UniqueAssetDetails :=
  { creator := who, metadata := metadata, supply := supply }

inductive Error where
  | Unknown
  | NotOwned
  | NoSupply
  | TypeOverflow
deriving Repr, DecidableEq

/-- Storage of the unique pallet: `UniqueAsset`, `Account`, `Nonce`. -/
structure State where
  unique_asset : Nat → Option UniqueAssetDetails
  account : Bal
  nonce : Nat

/-- Genesis storage: every map empty, nonce 0. -/
def init : State :=
  { unique_asset := fun _ => none, account := [], nonce := 0 }

/-- Dispatchable `mint`: `supply <= 0` fails with `NoSupply` (on `u128`
that is `supply = 0`); the nonce advances with `checked_add`
(`TypeOverflow` on failure, before any write); the minter receives the
entire initial supply at the new id. -/
def mint (s : State) (who : Nat) (metadata : List Nat) (supply : Nat) :
    Outcome Error State :=
  if supply = 0 then .err .NoSupply s
  else
    let id := s.nonce
    match checkedAdd s.nonce 1 with
    | none => .err .TypeOverflow s
    | some nonce' =>
        .ok { unique_asset :=
                updMap s.unique_asset id
                  (some (UniqueAssetDetails.new who metadata supply)),
              account := setBal s.account (id, who) supply,
              nonce := nonce' }

/-- Dispatchable `burn`.  Faithful to the source: the existence check
uses `asset_id`, but the `NotOwned` guard and the clamp both read the
balance at key `(0, who)` — asset id 0, not the `asset_id` argument —
while the plain `-=` is applied to the balance at `(asset_id, who)` and
the plain `-=` on `supply` to the asset's record (both can trap). -/
def burn (s : State) (who asset_id amount : Nat) :
    Outcome Error State :=
  match s.unique_asset asset_id with
  | none => .err .Unknown s
  | some _ =>
      if getBal s.account (0, who) = 0 then .err .NotOwned s
      else
        let origin_amount := getBal s.account (0, who)
        let new_amount := if amount > origin_amount then origin_amount else amount
        let bal := getBal s.account (asset_id, who)
        if new_amount ≤ bal then
          let account' := setBal s.account (asset_id, who) (bal - new_amount)
          match s.unique_asset asset_id with
          | none => .err .Unknown { s with account := account' }
          | some details =>
              if new_amount ≤ details.supply then
                .ok { s with
                        account := account',
                        unique_asset := updMap s.unique_asset asset_id
                          (some { details with
                                    supply := details.supply - new_amount }) }
              else .trap
        else .trap

/-- Dispatchable `transfer`: same guards and (asset-id-0) clamp as
`burn`; moves the clamped amount with plain `-=` / `+=` (both can trap). -/
def transfer (s : State) (who asset_id amount dest : Nat) :
    Outcome Error State :=
  match s.unique_asset asset_id with
  | none => .err .Unknown s
  | some _ =>
      if getBal s.account (0, who) = 0 then .err .NotOwned s
      else
        let origin_amount := getBal s.account (0, who)
        let new_amount := if amount > origin_amount then origin_amount else amount
        let bal := getBal s.account (asset_id, who)
        if new_amount ≤ bal then
          let acc₁ := setBal s.account (asset_id, who) (bal - new_amount)
          let recv := getBal acc₁ (asset_id, dest)
          if recv + new_amount ≤ U128_MAX then
            .ok { s with account := setBal acc₁ (asset_id, dest) (recv + new_amount) }
          else .trap
        else .trap

end Nfts

/-!
Reachability: storage states produced from genesis by successful
commands.  `err` outcomes leave the state unchanged and `trap` aborts,
so only `ok` outcomes (and the infallible `create`) produce new states.
-/

inductive AssetsReach : Assets.State → Prop where
  | init : AssetsReach Assets.init
  | create {s : Assets.State} (c : Nat) :
      AssetsReach s → AssetsReach (Assets.create s c)
  | set_metadata {s s' : Assets.State} {c id : Nat} {nm sy : List Nat} :
      AssetsReach s → Assets.set_metadata s c id nm sy = .ok s' → AssetsReach s'
  | mint {s s' : Assets.State} {c id amt d : Nat} :
      AssetsReach s → Assets.mint s c id amt d = .ok s' → AssetsReach s'
  | burn {s s' : Assets.State} {c id amt : Nat} :
      AssetsReach s → Assets.burn s c id amt = .ok s' → AssetsReach s'
  | transfer {s s' : Assets.State} {c id amt d : Nat} :
      AssetsReach s → Assets.transfer s c id amt d = .ok s' → AssetsReach s'

/-- Reachability restricted to traces in which every `create` happens
with the nonce strictly below `u128::MAX`, so the saturating nonce never
re-issues an id (fewer than 2^128 creates). -/
inductive AssetsReachSafe : Assets.State → Prop where
  | init : AssetsReachSafe Assets.init
  | create {s : Assets.State} (c : Nat) :
      AssetsReachSafe s → s.nonce < U128_MAX →
      AssetsReachSafe (Assets.create s c)
  | set_metadata {s s' : Assets.State} {c id : Nat} {nm sy : List Nat} :
      AssetsReachSafe s → Assets.set_metadata s c id nm sy = .ok s' →
      AssetsReachSafe s'
  | mint {s s' : Assets.State} {c id amt d : Nat} :
      AssetsReachSafe s → Assets.mint s c id amt d = .ok s' → AssetsReachSafe s'
  | burn {s s' : Assets.State} {c id amt : Nat} :
      AssetsReachSafe s → Assets.burn s c id amt = .ok s' → AssetsReachSafe s'
  | transfer {s s' : Assets.State} {c id amt d : Nat} :
      AssetsReachSafe s → Assets.transfer s c id amt d = .ok s' →
      AssetsReachSafe s'

inductive NftsReach : Nfts.State → Prop where
  | init : NftsReach Nfts.init
  | mint {s s' : Nfts.State} {c sup : Nat} {md : List Nat} :
      NftsReach s → Nfts.mint s c md sup = .ok s' → NftsReach s'
  | burn {s s' : Nfts.State} {c id amt : Nat} :
      NftsReach s → Nfts.burn s c id amt = .ok s' → NftsReach s'
  | transfer {s s' : Nfts.State} {c id amt d : Nat} :
      NftsReach s → Nfts.transfer s c id amt d = .ok s' → NftsReach s'

/-- Inductive invariant of the fungible pallet: the ledger is a genuine
map, ids at or above the nonce are unallocated, balances of absent
assets vanish, and each existing asset's supply equals the ledger sum
for its id and fits in a `u128`. -/
def FungInv (s : Assets.State) : Prop :=
  NodupKeys s.account ∧
  (∀ id, s.nonce ≤ id → s.asset id = none) ∧
  (∀ id, s.asset id = none → sumBal s.account id = 0) ∧
  (∀ id d, s.asset id = some d →
    d.supply = sumBal s.account id ∧ d.supply ≤ U128_MAX)

/-- Iterated `create` (all by account 0), for statements about the
identifier allocator. -/
def iterCreate : Nat → Assets.State → Assets.State
  | 0, s => s
  | n + 1, s => iterCreate n (Assets.create s 0)

/-- Iterated unique `mint` (by account 0, unit supply); a failed mint
leaves the state unchanged. -/
def iterNftMint : Nat → Nfts.State → Nfts.State
  | 0, s => s
  | n + 1, s =>
      match Nfts.mint s 0 [] 1 with
      | .ok s' => iterNftMint n s'
      | _ => iterNftMint n s

/-!
Inversion lemmas: what a successful (or failed) command tells us about
its inputs and its output state.
-/

theorem Assets.ensure_is_owner_ok {s : Assets.State} {id c : Nat}
    (h : Assets.ensure_is_owner s id c = .ok ()) :
    ∃ details, s.asset id = some details ∧ details.owner = c := by
  unfold Assets.ensure_is_owner at h
  split at h
  · cases h
  · next details hd =>
      split at h
      · next howner => exact ⟨details, hd, howner⟩
      · cases h

theorem Assets.mint_ok_inv {s s' : Assets.State} {c id amt dst : Nat}
    (h : Assets.mint s c id amt dst = .ok s') :
    ∃ details, s.asset id = some details ∧ details.owner = c ∧
      getBal s.account (id, dst) + (satAdd details.supply amt - details.supply)
        ≤ U128_MAX ∧
      s' = { s with
               asset := updMap s.asset id
                 (some { details with supply := satAdd details.supply amt }),
               account := setBal s.account (id, dst)
                 (getBal s.account (id, dst) +
                   (satAdd details.supply amt - details.supply)) } := by
  unfold Assets.mint at h
  split at h
  · cases h
  · next u heq =>
      obtain ⟨d₀, hd₀, how⟩ := Assets.ensure_is_owner_ok (by
        cases u; exact heq)
      split at h
      · cases h
      · next details hd =>
          rw [hd₀] at hd
          injection hd with hd
          subst hd
          simp only at h
          split at h
          · next hle =>
              injection h with h
              exact ⟨d₀, hd₀, how, hle, h.symm⟩
          · cases h

theorem Assets.burn_ok_inv {s s' : Assets.State} {c id amt : Nat}
    (h : Assets.burn s c id amt = .ok s') :
    ∃ details, s.asset id = some details ∧
      (getBal s.account (id, c) - satSub (getBal s.account (id, c)) amt)
        ≤ details.supply ∧
      s' = { s with
               asset := updMap s.asset id
                 (some { details with
                           supply := details.supply -
                             (getBal s.account (id, c) -
                               satSub (getBal s.account (id, c)) amt) }),
               account := setBal s.account (id, c)
                 (satSub (getBal s.account (id, c)) amt) } := by
  unfold Assets.burn at h
  split at h
  · cases h
  · next details hd =>
      simp only at h
      split at h
      · next hle =>
          injection h with h
          exact ⟨details, hd, hle, h.symm⟩
      · cases h

theorem Assets.transfer_ok_inv {s s' : Assets.State} {c id amt dst : Nat}
    (h : Assets.transfer s c id amt dst = .ok s') :
    ∃ details, s.asset id = some details ∧
      s' = { s with
               account :=
                 setBal (setBal s.account (id, c) (satSub (getBal s.account (id, c)) amt))
                   (id, dst)
                   (satAdd
                     (getBal (setBal s.account (id, c)
                        (satSub (getBal s.account (id, c)) amt)) (id, dst))
                     (getBal s.account (id, c) -
                       satSub (getBal s.account (id, c)) amt)) } := by
  unfold Assets.transfer at h
  split at h
  · cases h
  · next details hd =>
      simp only at h
      injection h with h
      exact ⟨details, hd, h.symm⟩

theorem Assets.set_metadata_ok_inv {s s' : Assets.State} {c id : Nat}
    {nm sy : List Nat}
    (h : Assets.set_metadata s c id nm sy = .ok s') :
    ∃ details, s.asset id = some details ∧ details.owner = c ∧
      s' = { s with
               metadata := updMap s.metadata id
                 (some (Assets.AssetMetadata.new nm sy)) } := by
  unfold Assets.set_metadata at h
  split at h
  · cases h
  · next u heq =>
      obtain ⟨d₀, hd₀, how⟩ := Assets.ensure_is_owner_ok (by
        cases u; exact heq)
      injection h with h
      exact ⟨d₀, hd₀, how, h.symm⟩

theorem Nfts.nfts_mint_ok_inv {s s' : Nfts.State} {c sup : Nat} {md : List Nat}
    (h : Nfts.mint s c md sup = .ok s') :
    sup ≠ 0 ∧ s.nonce + 1 ≤ U128_MAX ∧
    s' = { unique_asset := updMap s.unique_asset s.nonce
             (some (Nfts.UniqueAssetDetails.new c md sup)),
           account := setBal s.account (s.nonce, c) sup,
           nonce := s.nonce + 1 } := by
  unfold Nfts.mint at h
  split at h
  · cases h
  · next hsup =>
      simp only [checkedAdd] at h
      by_cases hle : s.nonce + 1 ≤ U128_MAX
      · rw [if_pos hle] at h
        injection h with h
        exact ⟨hsup, hle, h.symm⟩
      · rw [if_neg hle] at h
        cases h

theorem Nfts.nfts_burn_ok_inv {s s' : Nfts.State} {c id amt : Nat}
    (h : Nfts.burn s c id amt = .ok s') :
    ∃ details, s.unique_asset id = some details ∧
      getBal s.account (0, c) ≠ 0 ∧
      (min amt (getBal s.account (0, c))) ≤ getBal s.account (id, c) ∧
      (min amt (getBal s.account (0, c))) ≤ details.supply ∧
      s' = { s with
               account := setBal s.account (id, c)
                 (getBal s.account (id, c) - min amt (getBal s.account (0, c))),
               unique_asset := updMap s.unique_asset id
                 (some { details with
                           supply := details.supply -
                             min amt (getBal s.account (0, c)) }) } := by
  unfold Nfts.burn at h
  split at h
  · cases h
  · next d₀ hd₀ =>
      split at h
      · cases h
      · next hown =>
          simp only at h
          have hmin : (if amt > getBal s.account (0, c)
              then getBal s.account (0, c) else amt) =
              min amt (getBal s.account (0, c)) := by
            split <;> omega
          rw [hmin] at h
          split at h
          · next hbal =>
              split at h
              · next hsup =>
                  injection h with h
                  exact ⟨d₀, hd₀, hown, hbal, hsup, h.symm⟩
              · cases h
          · cases h

theorem Nfts.nfts_transfer_ok_inv {s s' : Nfts.State} {c id amt dst : Nat}
    (h : Nfts.transfer s c id amt dst = .ok s') :
    ∃ details, s.unique_asset id = some details ∧
      getBal s.account (0, c) ≠ 0 ∧
      (min amt (getBal s.account (0, c))) ≤ getBal s.account (id, c) ∧
      s' = { s with
               account :=
                 setBal (setBal s.account (id, c)
                     (getBal s.account (id, c) - min amt (getBal s.account (0, c))))
                   (id, dst)
                   (getBal (setBal s.account (id, c)
                       (getBal s.account (id, c) -
                         min amt (getBal s.account (0, c)))) (id, dst) +
                     min amt (getBal s.account (0, c))) } := by
  unfold Nfts.transfer at h
  split at h
  · cases h
  · next d₀ hd₀ =>
      split at h
      · cases h
      · next hown =>
          simp only at h
          have hmin : (if amt > getBal s.account (0, c)
              then getBal s.account (0, c) else amt) =
              min amt (getBal s.account (0, c)) := by
            split <;> omega
          rw [hmin] at h
          split at h
          · next hbal =>
              split at h
              · next hle =>
                  injection h with h
                  exact ⟨d₀, hd₀, hown, hbal, h.symm⟩
              · cases h
          · cases h

/-!
Preservation of the fungible inductive invariant.
-/

theorem fungInv_init : FungInv Assets.init := by
  refine ⟨?_, ?_, ?_, ?_⟩
  · simp [NodupKeys, balKeys, Assets.init]
  · intro id _; rfl
  · intro id _; rfl
  · intro id d h; cases h

theorem fungInv_create {s : Assets.State} (c : Nat)
    (h : FungInv s) (hn : s.nonce < U128_MAX) :
    FungInv (Assets.create s c) := by
  obtain ⟨h1, h2, h3, h4⟩ := h
  have hsat : satAdd s.nonce 1 = s.nonce + 1 := by
    unfold satAdd; omega
  refine ⟨h1, ?_, ?_, ?_⟩
  · intro id hid
    simp only [Assets.create, hsat, updMap] at hid ⊢
    have hne : id ≠ s.nonce := by omega
    rw [if_neg hne]
    exact h2 id (by omega)
  · intro id hid
    simp only [Assets.create, updMap] at hid ⊢
    by_cases hne : id = s.nonce
    · rw [if_pos hne] at hid; cases hid
    · rw [if_neg hne] at hid
      exact h3 id hid
  · intro id d hd
    simp only [Assets.create, updMap] at hd ⊢
    by_cases hne : id = s.nonce
    · rw [if_pos hne] at hd
      injection hd with hd
      subst hd
      constructor
      · exact (h3 id (h2 id (le_of_eq hne.symm))).symm
      · simp [Assets.AssetDetails.new, U128_MAX]
    · rw [if_neg hne] at hd
      exact h4 id d hd

theorem fungInv_set_metadata {s s' : Assets.State} {c id : Nat}
    {nm sy : List Nat}
    (h : FungInv s) (hok : Assets.set_metadata s c id nm sy = .ok s') :
    FungInv s' := by
  obtain ⟨-, -, -, hs'⟩ := Assets.set_metadata_ok_inv hok
  subst hs'
  exact h

theorem fungInv_mint {s s' : Assets.State} {c id amt dst : Nat}
    (h : FungInv s) (hok : Assets.mint s c id amt dst = .ok s') :
    FungInv s' := by
  obtain ⟨h1, h2, h3, h4⟩ := h
  obtain ⟨details, hd, -, hle, hs'⟩ := Assets.mint_ok_inv hok
  subst hs'
  have hidlt : id < s.nonce := by
    by_contra hlt
    rw [h2 id (by omega)] at hd
    cases hd
  obtain ⟨hsum, hmax⟩ := h4 id details hd
  have hsup_le : details.supply ≤ satAdd details.supply amt := by
    unfold satAdd; omega
  refine ⟨setBal_nodup _ _ _ h1, ?_, ?_, ?_⟩
  · intro i hi
    dsimp only at hi ⊢
    simp only [updMap]
    rw [if_neg (by omega)]
    exact h2 i hi
  · intro i hi
    simp only [updMap] at hi
    by_cases hne : i = id
    · rw [if_pos hne] at hi; cases hi
    · rw [if_neg hne] at hi
      rw [sumBal_setBal_ne _ _ _ _ (by simpa using (Ne.symm hne))]
      exact h3 i hi
  · intro i d hi
    simp only [updMap] at hi
    by_cases hne : i = id
    · rw [if_pos hne] at hi
      injection hi with hi
      subst hi
      subst hne
      have hset := sumBal_setBal_same s.account (i, dst)
        (getBal s.account (i, dst) + (satAdd details.supply amt - details.supply))
        i h1 rfl
      dsimp only
      constructor
      · omega
      · unfold satAdd
        omega
    · rw [if_neg hne] at hi
      rw [sumBal_setBal_ne _ _ _ _ (by simpa using (Ne.symm hne))]
      exact h4 i d hi

theorem fungInv_burn {s s' : Assets.State} {c id amt : Nat}
    (h : FungInv s) (hok : Assets.burn s c id amt = .ok s') :
    FungInv s' := by
  obtain ⟨h1, h2, h3, h4⟩ := h
  obtain ⟨details, hd, hle, hs'⟩ := Assets.burn_ok_inv hok
  subst hs'
  have hidlt : id < s.nonce := by
    by_contra hlt
    rw [h2 id (by omega)] at hd
    cases hd
  obtain ⟨hsum, hmax⟩ := h4 id details hd
  refine ⟨setBal_nodup _ _ _ h1, ?_, ?_, ?_⟩
  · intro i hi
    dsimp only at hi ⊢
    simp only [updMap]
    rw [if_neg (by omega)]
    exact h2 i hi
  · intro i hi
    simp only [updMap] at hi
    by_cases hne : i = id
    · rw [if_pos hne] at hi; cases hi
    · rw [if_neg hne] at hi
      rw [sumBal_setBal_ne _ _ _ _ (by simpa using (Ne.symm hne))]
      exact h3 i hi
  · intro i d hi
    simp only [updMap] at hi
    by_cases hne : i = id
    · rw [if_pos hne] at hi
      injection hi with hi
      subst hi
      subst hne
      have hset := sumBal_setBal_same s.account (i, c)
        (satSub (getBal s.account (i, c)) amt) i h1 rfl
      have hsub : satSub (getBal s.account (i, c)) amt ≤ getBal s.account (i, c) := by
        unfold satSub; omega
      dsimp only
      constructor
      · unfold satSub at hset hsub ⊢
        omega
      · omega
    · rw [if_neg hne] at hi
      rw [sumBal_setBal_ne _ _ _ _ (by simpa using (Ne.symm hne))]
      exact h4 i d hi

theorem fungInv_transfer {s s' : Assets.State} {c id amt dst : Nat}
    (h : FungInv s) (hok : Assets.transfer s c id amt dst = .ok s') :
    FungInv s' := by
  obtain ⟨h1, h2, h3, h4⟩ := h
  obtain ⟨details, hd, hs'⟩ := Assets.transfer_ok_inv hok
  subst hs'
  obtain ⟨hsum, hmax⟩ := h4 id details hd
  have hn1 : NodupKeys (setBal s.account (id, c) (satSub (getBal s.account (id, c)) amt)) :=
    setBal_nodup _ _ _ h1
  refine ⟨setBal_nodup _ _ _ hn1, h2, ?_, ?_⟩
  · intro i hi
    have hne : i ≠ id := by
      intro hc; subst hc; rw [hd] at hi; cases hi
    rw [sumBal_setBal_ne _ _ _ _ (by simpa using (Ne.symm hne)),
        sumBal_setBal_ne _ _ _ _ (by simpa using (Ne.symm hne))]
    exact h3 i hi
  · intro i d hi
    by_cases hne : i = id
    · subst hne
      rw [hd] at hi
      injection hi with hi
      subst hi
      set B := getBal s.account (i, c) with hB
      set nb := satSub B amt with hnb
      have hble : B ≤ sumBal s.account i := by
        have := getBal_le_sumBal s.account (i, c) h1
        simpa using this
      have hnbB : nb ≤ B := by rw [hnb]; unfold satSub; omega
      by_cases hcd : c = dst
      · subst hcd
        have hrecv : getBal (setBal s.account (i, c) nb) (i, c) = nb :=
          getBal_setBal_same _ _ _
        have hsat : satAdd nb (B - nb) = B := by
          unfold satAdd; omega
        have hset1 := sumBal_setBal_same s.account (i, c) nb i h1 rfl
        have hset2 := sumBal_setBal_same (setBal s.account (i, c) nb) (i, c)
          (satAdd (getBal (setBal s.account (i, c) nb) (i, c)) (B - nb)) i hn1 rfl
        rw [hrecv, hsat] at hset2
        dsimp only
        rw [hrecv, hsat]
        constructor
        · omega
        · omega
      · have hkne : ((i, dst) : BalKey) ≠ (i, c) := by
          simp [Prod.ext_iff]; exact fun hc => hcd hc.symm
        have hrecv : getBal (setBal s.account (i, c) nb) (i, dst) =
            getBal s.account (i, dst) :=
          getBal_setBal_ne _ _ _ _ hkne
        have hpair : getBal s.account (i, c) + getBal s.account (i, dst) ≤
            sumBal s.account i := by
          have := getBal_pair_le_sumBal s.account (i, c) (i, dst) i h1
            (by simp [Prod.ext_iff]; exact hcd) rfl rfl
          simpa using this
        have hsat : satAdd (getBal s.account (i, dst)) (B - nb) =
            getBal s.account (i, dst) + (B - nb) := by
          unfold satAdd; omega
        have hset1 := sumBal_setBal_same s.account (i, c) nb i h1 rfl
        have hset2 := sumBal_setBal_same (setBal s.account (i, c) nb) (i, dst)
          (satAdd (getBal (setBal s.account (i, c) nb) (i, dst)) (B - nb)) i hn1 rfl
        rw [hrecv, hsat] at hset2
        dsimp only
        rw [hrecv, hsat]
        constructor
        · omega
        · omega
    · rw [sumBal_setBal_ne _ _ _ _ (by simpa using (Ne.symm hne)),
          sumBal_setBal_ne _ _ _ _ (by simpa using (Ne.symm hne))]
      exact h4 i d hi

/-- Every state reachable without nonce saturation satisfies the
invariant. -/
theorem fungInv_of_reachSafe {s : Assets.State} (h : AssetsReachSafe s) :
    FungInv s := by
  induction h with
  | init => exact fungInv_init
  | create c _ hn ih => exact fungInv_create c ih hn
  | set_metadata _ hok ih => exact fungInv_set_metadata ih hok
  | mint _ hok ih => exact fungInv_mint ih hok
  | burn _ hok ih => exact fungInv_burn ih hok
  | transfer _ hok ih => exact fungInv_transfer ih hok

/-!
Facts about iterated allocation.
-/

theorem reach_iterCreate (n : Nat) {s : Assets.State} (h : AssetsReach s) :
    AssetsReach (iterCreate n s) := by
  induction n generalizing s with
  | zero => exact h
  | succ n ih => exact ih (AssetsReach.create 0 h)

theorem iterCreate_account (n : Nat) (s : Assets.State) :
    (iterCreate n s).account = s.account := by
  induction n generalizing s with
  | zero => rfl
  | succ n ih => rw [iterCreate, ih]; rfl

theorem iterCreate_nonce (n : Nat) (s : Assets.State) (h : s.nonce ≤ U128_MAX) :
    (iterCreate n s).nonce = min (s.nonce + n) U128_MAX := by
  induction n generalizing s with
  | zero => simp [iterCreate]; omega
  | succ n ih =>
      rw [iterCreate]
      have h' : (Assets.create s 0).nonce ≤ U128_MAX := by
        dsimp [Assets.create]; unfold satAdd; omega
      rw [ih _ h']
      dsimp [Assets.create]
      unfold satAdd
      omega

theorem nftMint_eval (s : Nfts.State) (c sup : Nat) (md : List Nat)
    (hsup : sup ≠ 0) (hn : s.nonce + 1 ≤ U128_MAX) :
    Nfts.mint s c md sup =
      .ok { unique_asset := updMap s.unique_asset s.nonce
              (some (Nfts.UniqueAssetDetails.new c md sup)),
            account := setBal s.account (s.nonce, c) sup,
            nonce := s.nonce + 1 } := by
  unfold Nfts.mint checkedAdd
  rw [if_neg hsup, if_pos hn]

theorem nftMint_overflow (s : Nfts.State) (c sup : Nat) (md : List Nat)
    (hsup : sup ≠ 0) (hn : ¬ s.nonce + 1 ≤ U128_MAX) :
    Nfts.mint s c md sup = .err .TypeOverflow s := by
  unfold Nfts.mint checkedAdd
  rw [if_neg hsup, if_neg hn]

theorem iterNftMint_nonce (n : Nat) (s : Nfts.State) (h : s.nonce ≤ U128_MAX) :
    (iterNftMint n s).nonce = min (s.nonce + n) U128_MAX := by
  induction n generalizing s with
  | zero => simp [iterNftMint]; omega
  | succ n ih =>
      rw [iterNftMint]
      by_cases hn : s.nonce + 1 ≤ U128_MAX
      · rw [nftMint_eval s 0 1 [] one_ne_zero hn]
        rw [ih _ (by simpa using hn)]
        simp only
        omega
      · rw [nftMint_overflow s 0 1 [] one_ne_zero hn]
        rw [ih _ h]
        omega

/-!
Evaluation lemmas: closed forms of each command under given
preconditions.
-/

theorem Assets.ensure_is_owner_err {s : Assets.State} {id c : Nat}
    {e : Assets.Error}
    (h : Assets.ensure_is_owner s id c = .error e) :
    (e = .Unknown ∧ s.asset id = none) ∨
    (e = .NoPermission ∧ ∃ d, s.asset id = some d ∧ d.owner ≠ c) := by
  unfold Assets.ensure_is_owner at h
  split at h
  · next hd => injection h with h; exact Or.inl ⟨h.symm, hd⟩
  · next d hd =>
      split at h
      · cases h
      · next how =>
          injection h with h
          exact Or.inr ⟨h.symm, d, hd, how⟩

theorem Assets.mint_eval (s : Assets.State) (c id amt dst : Nat)
    (details : Assets.AssetDetails)
    (hd : s.asset id = some details) (how : details.owner = c) :
    Assets.mint s c id amt dst =
      if getBal s.account (id, dst) + (satAdd details.supply amt - details.supply)
          ≤ U128_MAX
      then .ok { s with
                   asset := updMap s.asset id
                     (some { details with supply := satAdd details.supply amt }),
                   account := setBal s.account (id, dst)
                     (getBal s.account (id, dst) +
                       (satAdd details.supply amt - details.supply)) }
      else .trap := by
  unfold Assets.mint Assets.ensure_is_owner
  rw [hd]
  simp [how]

theorem Assets.set_metadata_eval (s : Assets.State) (c id : Nat)
    (nm sy : List Nat) (details : Assets.AssetDetails)
    (hd : s.asset id = some details) (how : details.owner = c) :
    Assets.set_metadata s c id nm sy =
      .ok { s with
              metadata := updMap s.metadata id
                (some (Assets.AssetMetadata.new nm sy)) } := by
  unfold Assets.set_metadata Assets.ensure_is_owner
  rw [hd]
  simp [how]

theorem Assets.transfer_eval (s : Assets.State) (c id amt dst : Nat)
    (details : Assets.AssetDetails) (hd : s.asset id = some details) :
    Assets.transfer s c id amt dst =
      .ok { s with
              account :=
                setBal (setBal s.account (id, c) (satSub (getBal s.account (id, c)) amt))
                  (id, dst)
                  (satAdd
                    (getBal (setBal s.account (id, c)
                       (satSub (getBal s.account (id, c)) amt)) (id, dst))
                    (getBal s.account (id, c) -
                      satSub (getBal s.account (id, c)) amt)) } := by
  unfold Assets.transfer
  rw [hd]

theorem Assets.set_metadata_unknown (s : Assets.State) (c id : Nat)
    (nm sy : List Nat) (hd : s.asset id = none) :
    Assets.set_metadata s c id nm sy = .err .Unknown s := by
  unfold Assets.set_metadata Assets.ensure_is_owner
  rw [hd]

theorem Assets.mint_unknown (s : Assets.State) (c id amt dst : Nat)
    (hd : s.asset id = none) :
    Assets.mint s c id amt dst = .err .Unknown s := by
  unfold Assets.mint Assets.ensure_is_owner
  rw [hd]

theorem Assets.set_metadata_noperm (s : Assets.State) (c id : Nat)
    (nm sy : List Nat) (details : Assets.AssetDetails)
    (hd : s.asset id = some details) (how : details.owner ≠ c) :
    Assets.set_metadata s c id nm sy = .err .NoPermission s := by
  unfold Assets.set_metadata Assets.ensure_is_owner
  rw [hd]
  simp [how]

theorem Assets.mint_noperm (s : Assets.State) (c id amt dst : Nat)
    (details : Assets.AssetDetails)
    (hd : s.asset id = some details) (how : details.owner ≠ c) :
    Assets.mint s c id amt dst = .err .NoPermission s := by
  unfold Assets.mint Assets.ensure_is_owner
  rw [hd]
  simp [how]

/-!
Claim theorems.
-/

/-- Storage state for C7: asset 0 has recorded supply 3 while its owner
holds a balance of 10 (an invariant-violating but syntactically valid
storage state, as the claim quantifies over storage states). -/
def c7State : Assets.State :=
  { asset := updMap (fun _ => none) 0 (some { owner := 7, supply := 3 }),
    account := [((0, 7), 10)],
    metadata := fun _ => none,
    nonce := 1 }

/-- C7: fungible burn's supply decrement is plain subtraction: at a state
where asset 0 has supply 3 and the caller's balance is 10, burning 10
makes the burned delta 10 exceed the supply 3, and the command traps on
the underflow instead of saturating the supply at zero. -/
theorem C7_fungible_burn_supply_underflow :
    c7State.asset 0 = some { owner := 7, supply := 3 } ∧
    getBal c7State.account (0, 7) -
        satSub (getBal c7State.account (0, 7)) 10 = 10 ∧
    Assets.burn c7State 7 0 10 = .trap :=
  ⟨rfl, rfl, rfl⟩

/-- Storage state for C2: account 4 owns balance 10 of unique asset 0
and balance 5 of unique asset 1 (both assets exist, nonce 2). -/
def c2State : Nfts.State :=
  { unique_asset :=
      updMap (updMap (fun _ => none) 0 (some (Nfts.UniqueAssetDetails.new 4 [1] 10)))
        1 (some (Nfts.UniqueAssetDetails.new 4 [2] 5)),
    account := [((0, 4), 10), ((1, 4), 5)],
    nonce := 2 }

/-- C2: the unique registry's burn and transfer do NOT clamp to the
caller's balance of the requested asset: at a state where the caller
holds 10 of asset 0 and 5 of asset 1, burning or transferring 7 of
asset 1 clamps against the asset-0 balance (to 7), applies the plain
subtraction to the asset-1 balance of 5, and traps instead of clamping
to 5 and succeeding as the claim describes. -/
theorem C2_nfts_clamp_uses_asset_zero :
    c2State.unique_asset 1 = some (Nfts.UniqueAssetDetails.new 4 [2] 5) ∧
    getBal c2State.account (1, 4) = 5 ∧
    getBal c2State.account (0, 4) = 10 ∧
    Nfts.burn c2State 4 1 7 = .trap ∧
    Nfts.transfer c2State 4 1 7 9 = .trap :=
  ⟨rfl, rfl, rfl, rfl, rfl⟩

/-- Intermediate state for C10: the unique registry after account 5
minted asset 0 with supply 10. -/
def c10Mid : Nfts.State :=
  { unique_asset := updMap (fun _ => none) 0 (some (Nfts.UniqueAssetDetails.new 5 [1] 10)),
    account := setBal [] (0, 5) 10,
    nonce := 1 }

/-- Reachable state for C10: account 5 minted asset 0 with supply 10 and
then asset 1 with supply 5. -/
def c10State : Nfts.State :=
  { unique_asset :=
      updMap (updMap (fun _ => none) 0 (some (Nfts.UniqueAssetDetails.new 5 [1] 10)))
        1 (some (Nfts.UniqueAssetDetails.new 5 [2] 5)),
    account := setBal (setBal [] (0, 5) 10) (1, 5) 5,
    nonce := 2 }

/-- C10: at a reachable state (mint supply 10, then mint supply 5) both
burn and transfer of 7 units of asset 1 trap: the NotOwned guard and
the clamp read balance(0, caller) = 10, so the requested 7 is not
clamped, and the plain subtraction on balance(1, caller) = 5
underflows. -/
theorem C10_nfts_miskeyed_clamp_traps :
    NftsReach c10State ∧
    getBal c10State.account (0, 5) = 10 ∧
    getBal c10State.account (1, 5) = 5 ∧
    Nfts.burn c10State 5 1 7 = .trap ∧
    Nfts.transfer c10State 5 1 7 9 = .trap := by
  have h1 : Nfts.mint Nfts.init 5 [1] 10 = .ok c10Mid := rfl
  have h2 : Nfts.mint c10Mid 5 [2] 5 = .ok c10State := rfl
  exact ⟨NftsReach.mint (NftsReach.mint NftsReach.init h1) h2, rfl, rfl, rfl, rfl⟩

/-- C9: unique mint with supply 0 fails with NoSupply and leaves the
state unchanged; with positive supply and an unsaturated nonce it
succeeds, stores UniqueAssetDetails{creator, metadata, supply} under the
freshly allocated id (the old nonce), and credits the entire supply to
the minter's balance at that id. -/
theorem C9_nfts_mint_validation (s : Nfts.State) (c sup : Nat)
    (md : List Nat) :
    (Nfts.mint s c md 0 = .err .NoSupply s) ∧
    (sup ≠ 0 → s.nonce < U128_MAX →
      ∃ s', Nfts.mint s c md sup = .ok s' ∧
        s'.unique_asset s.nonce = some (Nfts.UniqueAssetDetails.new c md sup) ∧
        getBal s'.account (s.nonce, c) = sup ∧
        s'.nonce = s.nonce + 1) := by
  constructor
  · rfl
  · intro hsup hn
    refine ⟨_, nftMint_eval s c sup md hsup (by omega), ?_, ?_, rfl⟩
    · simp [updMap]
    · exact getBal_setBal_same _ _ _

/-- Witness for C9 at a concrete input: from genesis, minting with
supply 0 fails with NoSupply, and minting 4 units of metadata [7]
allocates id 0, stores the details and credits the minter. -/
theorem C9_witness :
    (Nfts.mint Nfts.init 3 [7] 0 = .err .NoSupply Nfts.init) ∧
    (∃ s', Nfts.mint Nfts.init 3 [7] 4 = .ok s' ∧
      s'.unique_asset 0 = some (Nfts.UniqueAssetDetails.new 3 [7] 4) ∧
      getBal s'.account (0, 3) = 4 ∧
      s'.nonce = 0 + 1) :=
  ⟨(C9_nfts_mint_validation Nfts.init 3 4 [7]).1,
   (C9_nfts_mint_validation Nfts.init 3 4 [7]).2 (by decide) (by decide)⟩

/-- C3 (amended): mint grows the supply by saturating addition and adds
the actual delta new_supply - old_supply (not the requested amount) to
the recipient's balance, but by PLAIN addition: it succeeds with balance
increased by exactly the delta when that stays within u128, and traps
otherwise. -/
theorem C3_mint_delta_plain_addition (s : Assets.State)
    (c id amt dst : Nat) (details : Assets.AssetDetails)
    (hd : s.asset id = some details) (how : details.owner = c) :
    (getBal s.account (id, dst) + (satAdd details.supply amt - details.supply)
        ≤ U128_MAX →
      ∃ s', Assets.mint s c id amt dst = .ok s' ∧
        s'.asset id = some { details with supply := satAdd details.supply amt } ∧
        getBal s'.account (id, dst) =
          getBal s.account (id, dst) +
            (satAdd details.supply amt - details.supply)) ∧
    (U128_MAX < getBal s.account (id, dst) +
        (satAdd details.supply amt - details.supply) →
      Assets.mint s c id amt dst = .trap) := by
  have heval := Assets.mint_eval s c id amt dst details hd how
  constructor
  · intro hle
    rw [heval, if_pos hle]
    refine ⟨_, rfl, ?_, ?_⟩
    · simp [updMap]
    · exact getBal_setBal_same _ _ _
  · intro hgt
    rw [heval, if_neg (by omega)]

/-- Witness state for C3: asset 0 owned by account 2 with supply 10. -/
def c3WitState : Assets.State :=
  { asset := updMap (fun _ => none) 0 (some { owner := 2, supply := 10 }),
    account := [],
    metadata := fun _ => none,
    nonce := 1 }

/-- Witness for C3 at a concrete input: the owner mints 5 units to
account 1; the supply becomes 15 and the recipient's balance grows by
the delta 5. -/
theorem C3_witness :
    ∃ s', Assets.mint c3WitState 2 0 5 1 = .ok s' ∧
      s'.asset 0 = some { owner := 2, supply := satAdd 10 5 } ∧
      getBal s'.account (0, 1) =
        getBal c3WitState.account (0, 1) + (satAdd 10 5 - 10) :=
  (C3_mint_delta_plain_addition c3WitState 2 0 5 1
    { owner := 2, supply := 10 } rfl rfl).1 (by decide)

/-- Counterexample state for C3: asset 0 owned by account 2 with supply
0, while account 1 already holds the maximal u128 balance. -/
def c3CexState : Assets.State :=
  { asset := updMap (fun _ => none) 0 (some { owner := 2, supply := 0 }),
    account := [((0, 1), U128_MAX)],
    metadata := fun _ => none,
    nonce := 1 }

/-- C3 counterexample: at a state where the recipient already holds
u128::MAX, minting 5 traps on the plain balance addition; under the
claimed saturating addition it would instead succeed with the balance
clamped at u128::MAX. -/
theorem C3_cex_mint_balance_add_traps :
    c3CexState.asset 0 = some { owner := 2, supply := 0 } ∧
    getBal c3CexState.account (0, 1) = U128_MAX ∧
    Assets.mint c3CexState 2 0 5 1 = .trap ∧
    satAdd (getBal c3CexState.account (0, 1)) (satAdd 0 5 - 0) = U128_MAX ∧
    (∀ s', Assets.mint c3CexState 2 0 5 1 ≠ .ok s') := by
  refine ⟨rfl, rfl, rfl, by decide, ?_⟩
  intro s' h
  rw [show Assets.mint c3CexState 2 0 5 1 =
        (.trap : Outcome Assets.Error Assets.State) from rfl] at h
  exact Outcome.noConfusion h

/-- C4 (amended): a fungible transfer on an existing asset to a
DIFFERENT account, when the recipient's balance plus the transferred
delta min(amount, B) stays within u128 (so the receive-side saturating
addition does not clamp), moves exactly the delta and conserves the sum
of the two balances. -/
theorem C4_transfer_conservation (s : Assets.State)
    (c id amt dst : Nat) (details : Assets.AssetDetails)
    (hd : s.asset id = some details) (hne : dst ≠ c)
    (hcap : getBal s.account (id, dst) + min amt (getBal s.account (id, c))
      ≤ U128_MAX) :
    ∃ s', Assets.transfer s c id amt dst = .ok s' ∧
      getBal s'.account (id, c) =
        getBal s.account (id, c) - min amt (getBal s.account (id, c)) ∧
      getBal s'.account (id, dst) =
        getBal s.account (id, dst) + min amt (getBal s.account (id, c)) ∧
      getBal s'.account (id, c) + getBal s'.account (id, dst) =
        getBal s.account (id, c) + getBal s.account (id, dst) := by
  refine ⟨_, Assets.transfer_eval s c id amt dst details hd, ?_, ?_, ?_⟩
  all_goals
    set B := getBal s.account (id, c) with hB
    set T := getBal s.account (id, dst) with hT
    have hkne : ((id, c) : BalKey) ≠ (id, dst) := by
      simp [Prod.ext_iff]; exact fun hc => hne hc.symm
    have hrecv : getBal (setBal s.account (id, c) (satSub B amt)) (id, dst) = T :=
      getBal_setBal_ne _ _ _ _ (Ne.symm hkne)
    have hdelta : B - satSub B amt = min amt B := by unfold satSub; omega
    have hsat : satAdd T (B - satSub B amt) = T + min amt B := by
      rw [hdelta]; unfold satAdd; omega
  · dsimp only
    rw [getBal_setBal_ne _ _ _ _ hkne, getBal_setBal_same]
    unfold satSub
    omega
  · dsimp only
    rw [hrecv, hsat, getBal_setBal_same]
  · dsimp only
    rw [getBal_setBal_ne _ _ _ _ hkne, getBal_setBal_same, hrecv, hsat,
        getBal_setBal_same]
    unfold satSub
    omega

/-- Witness state for C4: asset 0 exists and account 2 holds 10. -/
def c4WitState : Assets.State :=
  { asset := updMap (fun _ => none) 0 (some { owner := 1, supply := 10 }),
    account := [((0, 2), 10)],
    metadata := fun _ => none,
    nonce := 1 }

/-- Witness for C4 at a concrete input: transferring 4 of account 2's 10
units to account 3 leaves 6 and 4, conserving the sum. -/
theorem C4_witness :
    ∃ s', Assets.transfer c4WitState 2 0 4 3 = .ok s' ∧
      getBal s'.account (0, 2) = getBal c4WitState.account (0, 2) - min 4 10 ∧
      getBal s'.account (0, 3) = getBal c4WitState.account (0, 3) + min 4 10 ∧
      getBal s'.account (0, 2) + getBal s'.account (0, 3) =
        getBal c4WitState.account (0, 2) + getBal c4WitState.account (0, 3) := by
  have h := C4_transfer_conservation c4WitState 2 0 4 3
    { owner := 1, supply := 10 } rfl (by decide) (by decide)
  simpa using h

/-- Counterexample state for C4: asset 0 exists, account 2 holds 5 and
account 3 already holds the maximal u128 balance. -/
def c4CexState : Assets.State :=
  { asset := updMap (fun _ => none) 0 (some { owner := 1, supply := 0 }),
    account := [((0, 2), 5), ((0, 3), U128_MAX)],
    metadata := fun _ => none,
    nonce := 1 }

/-- C4 counterexample: transferring 5 from account 2 (balance 5) to
account 3 (balance u128::MAX) zeroes the sender but the receive-side
saturating addition clamps, so the recipient's balance does not increase
by the delta 5 and the sum of the two balances is NOT conserved. -/
theorem C4_cex_transfer_saturation_leaks :
    c4CexState.asset 0 = some { owner := 1, supply := 0 } ∧
    getBal c4CexState.account (0, 2) = 5 ∧
    getBal c4CexState.account (0, 3) = U128_MAX ∧
    Assets.transfer c4CexState 2 0 5 3 =
      .ok { c4CexState with account := [((0, 2), 0), ((0, 3), U128_MAX)] } ∧
    getBal [((0, 2), 0), ((0, 3), U128_MAX)] (0, 2) +
        getBal [((0, 2), 0), ((0, 3), U128_MAX)] (0, 3) ≠
      getBal c4CexState.account (0, 2) + getBal c4CexState.account (0, 3) :=
  ⟨rfl, rfl, rfl, rfl, by decide⟩

/-- C8 (amended): set_metadata and mint fail with Unknown when the asset
is absent and with NoPermission exactly when the caller is not the
recorded owner, leaving the state unchanged; when the caller is the
owner, set_metadata succeeds and overwrites or creates the metadata
record, and mint succeeds provided the recipient balance plus the
minted delta stays within u128 (otherwise the plain addition traps). -/
theorem C8_permission_enforcement (s : Assets.State)
    (c id amt dst : Nat) (nm sy : List Nat) :
    (s.asset id = none →
      Assets.set_metadata s c id nm sy = .err .Unknown s ∧
      Assets.mint s c id amt dst = .err .Unknown s) ∧
    (∀ d, s.asset id = some d → d.owner ≠ c →
      Assets.set_metadata s c id nm sy = .err .NoPermission s ∧
      Assets.mint s c id amt dst = .err .NoPermission s) ∧
    (∀ d, s.asset id = some d → d.owner = c →
      Assets.set_metadata s c id nm sy =
        .ok { s with
                metadata := updMap s.metadata id
                  (some (Assets.AssetMetadata.new nm sy)) } ∧
      (getBal s.account (id, dst) + (satAdd d.supply amt - d.supply) ≤ U128_MAX →
        ∃ s', Assets.mint s c id amt dst = .ok s')) := by
  refine ⟨?_, ?_, ?_⟩
  · intro hd
    exact ⟨Assets.set_metadata_unknown s c id nm sy hd,
           Assets.mint_unknown s c id amt dst hd⟩
  · intro d hd how
    exact ⟨Assets.set_metadata_noperm s c id nm sy d hd how,
           Assets.mint_noperm s c id amt dst d hd how⟩
  · intro d hd how
    refine ⟨Assets.set_metadata_eval s c id nm sy d hd how, ?_⟩
    intro hle
    exact ⟨_, by rw [Assets.mint_eval s c id amt dst d hd how, if_pos hle]⟩

/-- Witness state for C8: asset 0 owned by account 6 with supply 0;
account 9 is not the owner. -/
def c8WitState : Assets.State :=
  { asset := updMap (fun _ => none) 0 (some { owner := 6, supply := 0 }),
    account := [],
    metadata := fun _ => none,
    nonce := 1 }

/-- Witness for C8 at concrete inputs: the non-owner 9 gets
NoPermission on both commands, and the owner 6 succeeds on both. -/
theorem C8_witness :
    (Assets.set_metadata c8WitState 9 0 [1] [2] = .err .NoPermission c8WitState ∧
      Assets.mint c8WitState 9 0 3 9 = .err .NoPermission c8WitState) ∧
    (Assets.set_metadata c8WitState 6 0 [1] [2] =
      .ok { c8WitState with
              metadata := updMap c8WitState.metadata 0
                (some (Assets.AssetMetadata.new [1] [2])) }) ∧
    (∃ s', Assets.mint c8WitState 6 0 3 9 = .ok s') :=
  ⟨(C8_permission_enforcement c8WitState 9 0 3 9 [1] [2]).2.1
      { owner := 6, supply := 0 } rfl (by decide),
   ((C8_permission_enforcement c8WitState 6 0 3 9 [1] [2]).2.2
      { owner := 6, supply := 0 } rfl rfl).1,
   ((C8_permission_enforcement c8WitState 6 0 3 9 [1] [2]).2.2
      { owner := 6, supply := 0 } rfl rfl).2 (by decide)⟩

/-- Counterexample state for C8: asset 0 owned by account 6, while the
recipient account 9 already holds the maximal u128 balance. -/
def c8CexState : Assets.State :=
  { asset := updMap (fun _ => none) 0 (some { owner := 6, supply := 0 }),
    account := [((0, 9), U128_MAX)],
    metadata := fun _ => none,
    nonce := 1 }

/-- C8 counterexample: the claim says mint succeeds whenever the caller
is the recorded owner, but with the recipient at u128::MAX the owner's
mint of 1 unit traps on the plain balance addition instead of
succeeding. -/
theorem C8_cex_owner_mint_traps :
    c8CexState.asset 0 = some { owner := 6, supply := 0 } ∧
    Assets.mint c8CexState 6 0 1 9 = .trap ∧
    (∀ s', Assets.mint c8CexState 6 0 1 9 ≠ .ok s') := by
  refine ⟨rfl, rfl, ?_⟩
  intro s' h
  rw [show Assets.mint c8CexState 6 0 1 9 =
        (.trap : Outcome Assets.Error Assets.State) from rfl] at h
  exact Outcome.noConfusion h

/-- C6: whenever a command of either registry returns a named error, the
returned storage state is exactly the input state (no write of the
command is persisted), and the error returned is the one named by the
failed precondition. -/
theorem C6_error_rollback (s : Assets.State) (t : Nfts.State)
    (c id amt dst : Nat) (nm sy md : List Nat)
    (e : Assets.Error) (e' : Nfts.Error)
    (s' : Assets.State) (t' : Nfts.State) :
    (Assets.set_metadata s c id nm sy = .err e s' →
      s' = s ∧ ((e = .Unknown ∧ s.asset id = none) ∨
        (e = .NoPermission ∧ ∃ d, s.asset id = some d ∧ d.owner ≠ c))) ∧
    (Assets.mint s c id amt dst = .err e s' →
      s' = s ∧ ((e = .Unknown ∧ s.asset id = none) ∨
        (e = .NoPermission ∧ ∃ d, s.asset id = some d ∧ d.owner ≠ c))) ∧
    (Assets.burn s c id amt = .err e s' →
      s' = s ∧ e = .Unknown ∧ s.asset id = none) ∧
    (Assets.transfer s c id amt dst = .err e s' →
      s' = s ∧ e = .Unknown ∧ s.asset id = none) ∧
    (Nfts.mint t c md amt = .err e' t' →
      t' = t ∧ ((e' = .NoSupply ∧ amt = 0) ∨
        (e' = .TypeOverflow ∧ amt ≠ 0 ∧ U128_MAX ≤ t.nonce))) ∧
    (Nfts.burn t c id amt = .err e' t' →
      t' = t ∧ ((e' = .Unknown ∧ t.unique_asset id = none) ∨
        (e' = .NotOwned ∧ t.unique_asset id ≠ none ∧
          getBal t.account (0, c) = 0))) ∧
    (Nfts.transfer t c id amt dst = .err e' t' →
      t' = t ∧ ((e' = .Unknown ∧ t.unique_asset id = none) ∨
        (e' = .NotOwned ∧ t.unique_asset id ≠ none ∧
          getBal t.account (0, c) = 0))) := by
  refine ⟨?_, ?_, ?_, ?_, ?_, ?_, ?_⟩
  · intro h
    unfold Assets.set_metadata at h
    split at h
    · next e₀ heq =>
        injection h with h1 h2
        exact ⟨h2.symm, by subst h1; exact Assets.ensure_is_owner_err heq⟩
    · cases h
  · intro h
    unfold Assets.mint at h
    split at h
    · next e₀ heq =>
        injection h with h1 h2
        exact ⟨h2.symm, by subst h1; exact Assets.ensure_is_owner_err heq⟩
    · next u heq =>
        split at h
        · next hd =>
            injection h with h1 h2
            exact ⟨h2.symm, Or.inl ⟨h1.symm, hd⟩⟩
        · next d hd =>
            simp only at h
            split at h
            · cases h
            · cases h
  · intro h
    unfold Assets.burn at h
    split at h
    · next hd =>
        injection h with h1 h2
        exact ⟨h2.symm, h1.symm, hd⟩
    · next d hd =>
        simp only at h
        split at h
        · cases h
        · cases h
  · intro h
    unfold Assets.transfer at h
    split at h
    · next hd =>
        injection h with h1 h2
        exact ⟨h2.symm, h1.symm, hd⟩
    · cases h
  · intro h
    unfold Nfts.mint at h
    split at h
    · next hsup =>
        injection h with h1 h2
        exact ⟨h2.symm, Or.inl ⟨h1.symm, hsup⟩⟩
    · next hsup =>
        simp only [checkedAdd] at h
        by_cases hle : t.nonce + 1 ≤ U128_MAX
        · rw [if_pos hle] at h
          cases h
        · rw [if_neg hle] at h
          injection h with h1 h2
          exact ⟨h2.symm, Or.inr ⟨h1.symm, hsup, by omega⟩⟩
  · intro h
    unfold Nfts.burn at h
    split at h
    · next hd =>
        injection h with h1 h2
        exact ⟨h2.symm, Or.inl ⟨h1.symm, hd⟩⟩
    · next d₀ hd =>
        split at h
        · next hown =>
            injection h with h1 h2
            exact ⟨h2.symm, Or.inr ⟨h1.symm, by rw [hd]; simp, hown⟩⟩
        · next hown =>
            simp only at h
            repeat' split at h
            all_goals cases h
  · intro h
    unfold Nfts.transfer at h
    split at h
    · next hd =>
        injection h with h1 h2
        exact ⟨h2.symm, Or.inl ⟨h1.symm, hd⟩⟩
    · next d₀ hd =>
        split at h
        · next hown =>
            injection h with h1 h2
            exact ⟨h2.symm, Or.inr ⟨h1.symm, by rw [hd]; simp, hown⟩⟩
        · next hown =>
            simp only at h
            repeat' split at h
            all_goals cases h

/-- Witness for C6 at concrete inputs: on the genesis states, fungible
burn of the nonexistent asset 0 fails with Unknown leaving storage
untouched, and unique mint with supply 0 fails with NoSupply leaving
storage untouched. -/
theorem C6_witness :
    (Assets.init = Assets.init ∧
      Assets.Error.Unknown = .Unknown ∧ Assets.init.asset 0 = none) ∧
    (Nfts.init = Nfts.init ∧
      ((Nfts.Error.NoSupply = .NoSupply ∧ (0 : Nat) = 0) ∨
        (Nfts.Error.NoSupply = .TypeOverflow ∧ (0 : Nat) ≠ 0 ∧
          U128_MAX ≤ Nfts.init.nonce))) :=
  ⟨(C6_error_rollback Assets.init Nfts.init 1 0 0 2 [] [] []
      .Unknown .NoSupply Assets.init Nfts.init).2.2.1 rfl,
   (C6_error_rollback Assets.init Nfts.init 1 0 0 2 [] [] []
      .Unknown .NoSupply Assets.init Nfts.init).2.2.2.2.1 rfl⟩

theorem pow128_eq : (2 : Nat) ^ 128 = U128_MAX + 1 := by decide

theorem iterCreate_init_nonce (k : Nat) :
    (iterCreate k Assets.init).nonce = min k U128_MAX := by
  rw [iterCreate_nonce k Assets.init (by decide)]
  simp [Assets.init]

theorem iterNftMint_init_nonce (k : Nat) :
    (iterNftMint k Nfts.init).nonce = min k U128_MAX := by
  rw [iterNftMint_nonce k Nfts.init (by decide)]
  simp [Nfts.init]

/-- C5 (amended): from a fresh registry the n-th allocation returns id
n-1 and ids never repeat, for the fungible registry within the first
2^128 creates (beyond which the saturating nonce re-issues u128::MAX)
and for the unique registry within its 2^128 - 1 possible successful
mints (beyond which mint fails with TypeOverflow instead of ever
repeating an id). -/
theorem C5_alloc_ids (n m : Nat) :
    (1 ≤ n → n ≤ 2 ^ 128 →
      (iterCreate (n - 1) Assets.init).nonce = n - 1) ∧
    (1 ≤ n → n ≤ 2 ^ 128 - 1 →
      (iterNftMint (n - 1) Nfts.init).nonce = n - 1 ∧
      ∃ s', Nfts.mint (iterNftMint (n - 1) Nfts.init) 0 [] 1 = .ok s') ∧
    (1 ≤ m → m < n → n ≤ 2 ^ 128 →
      (iterCreate (m - 1) Assets.init).nonce ≠
        (iterCreate (n - 1) Assets.init).nonce) ∧
    (1 ≤ m → m < n → n ≤ 2 ^ 128 - 1 →
      (iterNftMint (m - 1) Nfts.init).nonce ≠
        (iterNftMint (n - 1) Nfts.init).nonce) := by
  refine ⟨?_, ?_, ?_, ?_⟩
  · intro h1 h2
    rw [pow128_eq] at h2
    rw [iterCreate_init_nonce]
    omega
  · intro h1 h2
    rw [pow128_eq] at h2
    constructor
    · rw [iterNftMint_init_nonce]
      omega
    · have hn : (iterNftMint (n - 1) Nfts.init).nonce + 1 ≤ U128_MAX := by
        rw [iterNftMint_init_nonce]
        omega
      exact ⟨_, nftMint_eval _ 0 1 [] one_ne_zero hn⟩
  · intro h1 h2 h3
    rw [pow128_eq] at h3
    rw [iterCreate_init_nonce, iterCreate_init_nonce]
    omega
  · intro h1 h2 h3
    rw [pow128_eq] at h3
    rw [iterNftMint_init_nonce, iterNftMint_init_nonce]
    omega

/-- Witness for C5 at concrete inputs n = 2, m = 1: the second create
returns id 1, the second unique mint returns id 1 and succeeds, and
neither second allocation repeats the first id. -/
theorem C5_witness :
    (iterCreate 1 Assets.init).nonce = 1 ∧
    ((iterNftMint 1 Nfts.init).nonce = 1 ∧
      ∃ s', Nfts.mint (iterNftMint 1 Nfts.init) 0 [] 1 = .ok s') ∧
    (iterCreate 0 Assets.init).nonce ≠ (iterCreate 1 Assets.init).nonce ∧
    (iterNftMint 0 Nfts.init).nonce ≠ (iterNftMint 1 Nfts.init).nonce :=
  ⟨(C5_alloc_ids 2 1).1 (by decide) (by decide),
   (C5_alloc_ids 2 1).2.1 (by decide) (by decide),
   (C5_alloc_ids 2 1).2.2.1 (by decide) (by decide) (by decide),
   (C5_alloc_ids 2 1).2.2.2 (by decide) (by decide) (by decide)⟩

/-- C5 counterexample: the fungible allocator's nonce saturates, so the
2^128-th and (2^128+1)-th creates both return id u128::MAX — consecutive
successful allocations DO repeat a value, and the (2^128+1)-th
allocation does not return n-1 = 2^128. -/
theorem C5_cex_fungible_id_repeats :
    (iterCreate (2 ^ 128 - 1) Assets.init).nonce =
      (iterCreate (2 ^ 128) Assets.init).nonce ∧
    (iterCreate (2 ^ 128) Assets.init).nonce ≠ 2 ^ 128 := by
  rw [iterCreate_init_nonce, iterCreate_init_nonce, pow128_eq]
  constructor
  · omega
  · omega

theorem Assets.create_asset_at (s : Assets.State) (c i : Nat) :
    (Assets.create s c).asset i =
      if i = s.nonce then some (Assets.AssetDetails.new c) else s.asset i := rfl

theorem Assets.create_nonce (s : Assets.State) (c : Nat) :
    (Assets.create s c).nonce = satAdd s.nonce 1 := rfl

theorem Assets.create_account (s : Assets.State) (c : Nat) :
    (Assets.create s c).account = s.account := rfl

/-- C1 (amended): along any trace in which every create happens with
the nonce strictly below u128::MAX (fewer than 2^128 creates), every
existing asset's recorded supply equals the sum of all balance-ledger
entries for its id, after every successful command. -/
theorem C1_supply_eq_sum (s : Assets.State) (h : AssetsReachSafe s)
    (id : Nat) (d : Assets.AssetDetails) (hd : s.asset id = some d) :
    d.supply = sumBal s.account id :=
  ((fungInv_of_reachSafe h).2.2.2 id d hd).1

/-- Witness for C1 at a concrete input: after one create, asset 0 has
supply 0 and the ledger sum for asset 0 is 0. -/
theorem C1_witness :
    (Assets.AssetDetails.new 7).supply =
      sumBal (Assets.create Assets.init 7).account 0 :=
  C1_supply_eq_sum (Assets.create Assets.init 7)
    (AssetsReachSafe.create 7 AssetsReachSafe.init (by decide)) 0
    (Assets.AssetDetails.new 7) rfl

/-- C1 counterexample: the invariant does not hold on all reachable
states.  After 2^128 creates the saturated nonce makes create overwrite
asset u128::MAX: minting 5 units there and creating again resets the
recorded supply to 0 while the ledger still holds 5, so the state after
that successful create violates supply = sum of balances. -/
theorem C1_cex_invariant_breaks_at_nonce_saturation :
    ¬ (∀ s : Assets.State, AssetsReach s → ∀ id d, s.asset id = some d →
        d.supply = sumBal s.account id) := by
  intro hclaim
  have h0reach : AssetsReach (iterCreate U128_MAX Assets.init) :=
    reach_iterCreate _ AssetsReach.init
  have h0n : (iterCreate U128_MAX Assets.init).nonce = U128_MAX := by
    rw [iterCreate_init_nonce]; omega
  have h0a : (iterCreate U128_MAX Assets.init).account = [] := by
    rw [iterCreate_account]; rfl
  set s1 := Assets.create (iterCreate U128_MAX Assets.init) 0 with hs1
  have h1reach : AssetsReach s1 :=
    AssetsReach.create 0 h0reach
  have h1asset : s1.asset U128_MAX = some (Assets.AssetDetails.new 0) := by
    rw [hs1, Assets.create_asset_at, h0n, if_pos rfl]
  have h1acc : s1.account = [] := by
    rw [hs1, Assets.create_account, h0a]
  have hcond : getBal s1.account (U128_MAX, 0) +
      (satAdd (Assets.AssetDetails.new 0).supply 5 -
        (Assets.AssetDetails.new 0).supply) ≤ U128_MAX := by
    rw [h1acc]; decide
  have hmint := Assets.mint_eval s1 0 U128_MAX 5 0
    (Assets.AssetDetails.new 0) h1asset rfl
  rw [if_pos hcond] at hmint
  set s2 := { s1 with
                asset := updMap s1.asset U128_MAX
                  (some { Assets.AssetDetails.new 0 with
                            supply := satAdd (Assets.AssetDetails.new 0).supply 5 }),
                account := setBal s1.account (U128_MAX, 0)
                  (getBal s1.account (U128_MAX, 0) +
                    (satAdd (Assets.AssetDetails.new 0).supply 5 -
                      (Assets.AssetDetails.new 0).supply)) } with hs2
  have h2reach : AssetsReach s2 := AssetsReach.mint h1reach hmint
  have h2acc : s2.account = [((U128_MAX, 0), 5)] := by
    rw [hs2]
    dsimp only
    rw [h1acc]
    rfl
  have h2n : s2.nonce = U128_MAX := by
    rw [hs2]
    dsimp only
    rw [hs1, Assets.create_nonce, h0n]
    unfold satAdd
    omega
  have h3reach : AssetsReach (Assets.create s2 0) := AssetsReach.create 0 h2reach
  have h3asset : (Assets.create s2 0).asset U128_MAX =
      some (Assets.AssetDetails.new 0) := by
    rw [Assets.create_asset_at, h2n, if_pos rfl]
  have hfinal := hclaim _ h3reach U128_MAX _ h3asset
  rw [Assets.create_account, h2acc] at hfinal
  exact absurd hfinal (by decide)
